import Mathlib

/-
Verification development for the NDI position-tracking test harness
(repository VGH-25-Fall).  The definitions below are a shallow embedding
of the Python source:

  * the coordinate codec: `format_coord` (virtual_spheres.py, lines 149-152;
    the identical `_num` appears in improved_fake_data.py and sim_runner.py),
    `generate_tx_response` (virtual_spheres.py, lines 155-164) and the decoder
    `TX0008_pos_str_to_list` (NDI transformation reader, lines 97-109);
  * the motion model and target simulator `VirtualSphere` / `SphereSimulator`
    (virtual_spheres.py, lines 12-144);
  * the deterministic keyboard scheduler `_KeyboardMock.is_pressed`
    (sim_runner.py, lines 93-108; sim_runner_flexible.py, lines 41-54);
  * the diff renderer `SmoothDisplay.update` (NDI transformation reader,
    lines 18-49; sim_runner.py, lines 10-44);
  * an access-trace model of the lock discipline around the shared tick
    counter (sim_runner.py, lines 101-121 and 214-219).

Python floats are modelled as rationals, `math.sin` / `math.cos` and
`random.uniform` as abstract functions packaged in `SimEnv`, and Python's
`int()` truncation toward zero as `pyInt`.
-/

/-! # Definitions -/

/-! ## Decimal digit strings

Python's `f"{n:d}"` renders a natural number in decimal.  `natDigits`
is that decimal rendering as a list of characters; it is written with
explicit fuel so that it is structurally recursive (and hence reducible
by the kernel on concrete inputs). -/

/-- The character for a single decimal digit `d < 10`. -/
def digitChar (d : Nat) : Char := Char.ofNat (48 + d)

/-- Fuel-indexed decimal rendering: with enough fuel this produces the
usual most-significant-first digit list of `n`. -/
def natDigitsAux : Nat → Nat → List Char
  | 0, _ => []
  | fuel + 1, n =>
    if n < 10 then [digitChar n]
    else natDigitsAux fuel (n / 10) ++ [digitChar (n % 10)]

/-- The decimal digit characters of `n`, most significant first
(the rendering used by Python's `f"{n:d}"`). -/
def natDigits (n : Nat) : List Char := natDigitsAux (n + 1) n

/-- Numeric value of a digit character. -/
def digitVal (c : Char) : Nat := c.toNat - 48

/-- Read a most-significant-first digit list back into a natural number. -/
def digitsToNat (l : List Char) : Nat := l.foldl (fun a c => 10 * a + digitVal c) 0

/-! ## Encoding (virtual_spheres.py, `format_coord`; improved_fake_data.py, `_num`)

```python
def format_coord(n: int, width: int = 6, sign: bool = True) -> str:
    s = f"{abs(n):{width}d}"
    return ("+" if n >= 0 else "-") + s if sign else s
```

Note that Python's `f"{m:6d}"` pads on the left with **spaces** (not
zeros) up to the requested width. -/

/-- Python's width field for `d`-formatting: left-pad with spaces. -/
def spacePad (width : Nat) (l : List Char) : List Char :=
  List.replicate (width - l.length) ' ' ++ l

/-- `format_coord` from virtual_spheres.py (identical to `_num` in
improved_fake_data.py and sim_runner.py). -/
def format_coord (n : Int) (width : Nat) (sign : Bool) : String :=
  let s := String.mk (spacePad width (natDigits n.natAbs))
  if sign then (if 0 ≤ n then "+" else "-") ++ s else s

/-- Python's `"|".join(chunks)`. -/
def joinBar : List String → String
  | [] => ""
  | [s] => s
  | s :: rest => s ++ "|" ++ joinBar rest

/-- Character-level version of `"|".join`. -/
def joinBarChars : List (List Char) → List Char
  | [] => []
  | [s] => s
  | s :: rest => s ++ '|' :: joinBarChars rest

/-- The TX response envelope built from an already-flattened coordinate
list, exactly as `generate_tx_response` builds it from the simulator's
positions (virtual_spheres.py, lines 155-164). -/
def txFrame (vals : List Int) : String :=
  "TXRESP|OK|" ++ joinBar (vals.map (fun c => format_coord c 6 true)) ++ "|END"

/-! ## Decoding (NDI transformation reader, `TX0008_pos_str_to_list`)

```python
def TX0008_pos_str_to_list(str_input, len_digit):
    list_position = []
    while len(str_input) > 0:
        if str_input[0] in "+-":
            str_coord = str_input[:len_digit + 1]
            str_coord_point = str_coord[:5] + "." + str_coord[5:]
            list_position.append(str_coord_point)
            str_input = str_input[len_digit + 1:]
        else:
            str_input = str_input[1:]
    return list_position
```

The loop consumes at least one character per iteration, so running it
with the input length as fuel is exact. -/

/-- `str_coord[:5] + "." + str_coord[5:]` -/
def insertPoint (l : List Char) : List Char := l.take 5 ++ '.' :: l.drop 5

/-- The decoder loop, with fuel (one unit per loop iteration; the input
length is always enough fuel). -/
def posStrLoop (len_digit : Nat) : Nat → List Char → List (List Char)
  | 0, _ => []
  | _ + 1, [] => []
  | fuel + 1, c :: rest =>
    if c = '+' ∨ c = '-' then
      insertPoint ((c :: rest).take (len_digit + 1)) ::
        posStrLoop len_digit fuel ((c :: rest).drop (len_digit + 1))
    else
      posStrLoop len_digit fuel rest

/-- The decoder run with exactly enough fuel. -/
def posDecode (len_digit : Nat) (l : List Char) : List (List Char) :=
  posStrLoop len_digit l.length l

/-- `TX0008_pos_str_to_list` from the NDI transformation reader. -/
def TX0008_pos_str_to_list (str_input : String) (len_digit : Nat) : List String :=
  (posDecode len_digit str_input.data).map String.mk

/-- The signed integer denoted by a token's digit characters: the
"digits with the inserted decimal point removed", together with the sign
taken from the token's leading character. -/
def tokenInt (s : String) : Int :=
  let mag : Int := digitsToNat (s.data.filter Char.isDigit)
  if s.data.head? = some '-' then -mag else mag

/-- Remove the decimal point that decoding inserted. -/
def removePoint (s : String) : String :=
  String.mk (s.data.filter (fun c => !(c == '.')))

/-! ## Motion model (virtual_spheres.py, lines 12-88)

`math.sin`, `math.cos` and `random.uniform` are library functions for the
source; they are modelled as abstract functions carried by a `SimEnv`.
`uniform` is indexed by the position in the random stream (each call to
`random.uniform` consumes one draw) and is constrained only by its
documented contract: the result lies between the given bounds. -/

/-- Abstract model of the `math` / `random` library functions used by
`VirtualSphere.get_position`. -/
structure SimEnv where
  sin : ℚ → ℚ
  cos : ℚ → ℚ
  uniform : Nat → ℚ → ℚ → ℚ
  uniform_mem : ∀ k lo hi, lo ≤ hi → lo ≤ uniform k lo hi ∧ uniform k lo hi ≤ hi

/-- `SphereConfig` from virtual_spheres.py (lines 12-20); `noise` is the
source's `noise` field (jitter bound). -/
structure SphereConfig where
  center : ℚ × ℚ × ℚ
  motion_type : String
  amplitude : ℚ
  frequency : ℚ
  phase : ℚ
  noise : ℚ

/-- `VirtualSphere` (virtual_spheres.py, lines 23-28): a config plus the
start-time reference captured at creation. -/
structure VirtualSphere where
  config : SphereConfig
  start_time : ℚ

/-- Python's `int()` applied to a rational: truncation toward zero. -/
def pyInt (q : ℚ) : Int := q.num.tdiv (q.den : Int)

/-- The motion-type dispatch of `VirtualSphere.get_position`
(virtual_spheres.py, lines 35-79): the offset `(dx, dy, dz)` computed
before noise is added, together with the next random-stream index
(only `random_walk` consumes draws here).  The if/elif chain mirrors the
source; note that it has branches for `circle_xy` and `circle_xz` but
none for `circle_yz`, which therefore falls into the final zero-offset
fallback. -/
def motionOffset (env : SimEnv) (cfg : SphereConfig) (t : ℚ) (k : Nat) : (ℚ × ℚ × ℚ) × Nat :=
  if cfg.motion_type = "static" then
    ((0, 0, 0), k)
  else if cfg.motion_type = "circle_xy" then
    let angle := t * cfg.frequency + cfg.phase
    ((cfg.amplitude * env.cos angle, cfg.amplitude * env.sin angle, 0), k)
  else if cfg.motion_type = "circle_xz" then
    let angle := t * cfg.frequency + cfg.phase
    ((cfg.amplitude * env.cos angle, 0, cfg.amplitude * env.sin angle), k)
  else if cfg.motion_type = "wave_x" then
    ((cfg.amplitude * env.sin (t * cfg.frequency + cfg.phase), 0, 0), k)
  else if cfg.motion_type = "wave_xyz" then
    ((cfg.amplitude * env.sin (t * cfg.frequency + cfg.phase),
      cfg.amplitude * env.sin (t * cfg.frequency * (13 / 10) + cfg.phase),
      cfg.amplitude * env.sin (t * cfg.frequency * (7 / 10) + cfg.phase)), k)
  else if cfg.motion_type = "spiral" then
    let angle := t * cfg.frequency + cfg.phase
    let r := cfg.amplitude * (1 + (1 / 10) * t)
    ((r * env.cos angle, r * env.sin angle,
      cfg.amplitude * (1 / 2) * env.sin (t * (1 / 2))), k)
  else if cfg.motion_type = "random_walk" then
    ((env.uniform k (-cfg.amplitude) cfg.amplitude,
      env.uniform (k + 1) (-cfg.amplitude) cfg.amplitude,
      env.uniform (k + 2) (-(cfg.amplitude * (3 / 10))) (cfg.amplitude * (3 / 10))), k + 3)
  else
    ((0, 0, 0), k)

/-- `VirtualSphere.get_position` (virtual_spheres.py, lines 30-88):
motion offset, then one uniform noise draw per axis, then `int()`
truncation.  Returns the position and the next random-stream index. -/
def VirtualSphere.get_position (env : SimEnv) (now : ℚ) (s : VirtualSphere) (k : Nat) :
    (Int × Int × Int) × Nat :=
  let t := now - s.start_time
  let x := s.config.center.1
  let y := s.config.center.2.1
  let z := s.config.center.2.2
  let od := motionOffset env s.config t k
  let k1 := od.2
  let n1 := env.uniform k1 (-s.config.noise) s.config.noise
  let n2 := env.uniform (k1 + 1) (-s.config.noise) s.config.noise
  let n3 := env.uniform (k1 + 2) (-s.config.noise) s.config.noise
  ((pyInt (x + od.1.1 + n1), pyInt (y + od.1.2.1 + n2), pyInt (z + od.1.2.2 + n3)), k1 + 3)

/-- `SphereSimulator` (virtual_spheres.py, lines 91-144): an ordered
registry of spheres. -/
structure SphereSimulator where
  spheres : List VirtualSphere

/-- `SphereSimulator.__init__`: starts with no spheres. -/
def mkSimulator : SphereSimulator := { spheres := [] }

/-- `add_sphere` (lines 97-99): appends a new `VirtualSphere` whose start
time is the current time (`now` models `time.time()` at the add). -/
def SphereSimulator.add_sphere (sim : SphereSimulator) (config : SphereConfig) (now : ℚ) :
    SphereSimulator :=
  { spheres := sim.spheres ++ [{ config := config, start_time := now }] }

/-- `clear` (lines 142-144). -/
def SphereSimulator.clear (_ : SphereSimulator) : SphereSimulator := { spheres := [] }

/-- The list comprehension of `get_all_positions` (line 140), threading
the random stream through the spheres in registry order. -/
def getAllAux (env : SimEnv) (now : ℚ) : List VirtualSphere → Nat → List (Int × Int × Int)
  | [], _ => []
  | s :: rest, k =>
    (s.get_position env now k).1 :: getAllAux env now rest (s.get_position env now k).2

/-- `get_all_positions` (virtual_spheres.py, lines 138-140). -/
def SphereSimulator.get_all_positions (sim : SphereSimulator) (env : SimEnv) (now : ℚ)
    (k : Nat) : List (Int × Int × Int) :=
  getAllAux env now sim.spheres k

/-- `generate_tx_response` (virtual_spheres.py, lines 155-164). -/
def generate_tx_response (env : SimEnv) (now : ℚ) (k : Nat) (simulator : SphereSimulator) :
    String :=
  let positions := simulator.get_all_positions env now k
  let coords := positions.flatMap (fun p => [p.1, p.2.1, p.2.2])
  "TXRESP|OK|" ++ joinBar (coords.map (fun c => format_coord c 6 true)) ++ "|END"

/-- A `(config, add-time)` pair turned into the sphere `add_sphere`
creates for it. -/
def mkSphere (a : SphereConfig × ℚ) : VirtualSphere :=
  { config := a.1, start_time := a.2 }

/-- A sequence of `add_sphere` calls (with the wall-clock time of each
add), with no intervening `clear`. -/
def addAll (sim : SphereSimulator) (adds : List (SphereConfig × ℚ)) : SphereSimulator :=
  adds.foldl (fun s a => s.add_sphere a.1 a.2) sim

/-! ## Event scheduler (sim_runner.py, lines 93-108)

```python
class _KeyboardMock:
    def __init__(self, schedule):
        self.schedule = dict(schedule)
        self.tick = 0
        self._fired = set()
        self._lock = threading.Lock()
        self._history = []

    def is_pressed(self, key):
        with self._lock:
            want = self.schedule.get(self.tick)
            if want == key and self.tick not in self._fired:
                self._fired.add(self.tick)
                self._history.append((self.tick, key))
                return True
            return False
```

(The version in sim_runner_flexible.py, lines 41-54, is identical except
that it keeps no history.)  The dict is modelled as `Nat → Option String`
and the fired set as a list used only through membership and insertion. -/

/-- `_KeyboardMock`'s state. -/
structure KeyboardMock where
  schedule : Nat → Option String
  tick : Nat
  fired : List Nat
  history : List (Nat × String)

/-- `_KeyboardMock.is_pressed`: returns the boolean result and the
updated state. -/
def KeyboardMock.is_pressed (m : KeyboardMock) (key : String) : Bool × KeyboardMock :=
  let want := m.schedule m.tick
  if want = some key ∧ m.tick ∉ m.fired then
    (true, { m with fired := m.tick :: m.fired, history := m.history ++ [(m.tick, key)] })
  else
    (false, m)

/-- A sequence of `is_pressed` queries with no intervening tick advance:
the list of results and the final state. -/
def runQueries : KeyboardMock → List String → List Bool × KeyboardMock
  | m, [] => ([], m)
  | m, key :: rest =>
    ((m.is_pressed key).1 :: (runQueries (m.is_pressed key).2 rest).1,
      (runQueries (m.is_pressed key).2 rest).2)

/-! ## Diff renderer (NDI transformation reader, lines 18-49)

```python
def update(self, lines):
    sys.stdout.write('\033[H')
    for line in lines:
        sys.stdout.write('\033[K')
        sys.stdout.write(line + '\n')
    if len(lines) < len(self.last_lines):
        for _ in range(len(self.last_lines) - len(lines)):
            sys.stdout.write('\033[K\n')
    sys.stdout.flush()
    self.last_lines = lines
```

The output is modelled as the list of `sys.stdout.write` calls, in
order. -/

/-- `SmoothDisplay`'s state. -/
structure SmoothDisplay where
  last_lines : List String

/-- `SmoothDisplay.update`: the emitted write calls together with the
updated state. -/
def SmoothDisplay.update (d : SmoothDisplay) (lines : List String) :
    List String × SmoothDisplay :=
  ("\x1b[H" ::
      (lines.flatMap (fun line => ["\x1b[K", line ++ "\n"]) ++
        (if lines.length < d.last_lines.length then
          List.replicate (d.last_lines.length - lines.length) "\x1b[K\n"
        else [])),
    { last_lines := lines })

/-! ## Lock discipline around the shared tick counter (sim_runner.py)

The shared state is `keyboard_mock.tick` and `keyboard_mock._fired`.
The three code paths that touch it are modelled as traces of accesses,
each tagged with whether it happens inside the `with mock._lock`
critical section:

  * `_ticker` (lines 115-121): `with mock._lock: mock.tick += 1`;
  * `_KeyboardMock.is_pressed` (lines 101-108): reads `tick`, reads the
    fired set, and (on a hit) writes the fired set, all under the lock;
  * the patched wait primitive `_sleep` (lines 214-219):
    `keyboard_mock.tick += 1` with **no** lock acquisition.
-/

/-- The two shared variables of the scheduler. -/
inductive SharedVar where
  | tick : SharedVar
  | fired : SharedVar
deriving DecidableEq

/-- One read or write of a shared variable, tagged with whether the
mutex is held. -/
structure SharedAccess where
  var : SharedVar
  isWrite : Bool
  underLock : Bool
deriving DecidableEq

/-- Accesses of one `_ticker` loop iteration (sim_runner.py, lines
117-119): the read and write of `tick += 1`, inside `with mock._lock`. -/
def tickerAccesses : List SharedAccess :=
  [{ var := SharedVar.tick, isWrite := false, underLock := true },
   { var := SharedVar.tick, isWrite := true, underLock := true }]

/-- Accesses of one `is_pressed` call (sim_runner.py, lines 101-108),
all inside `with self._lock`: read `tick` (schedule lookup and fired
test), read the fired set, and on a hit (`hit = true`) write the fired
set. -/
def isPressedAccesses (hit : Bool) : List SharedAccess :=
  [{ var := SharedVar.tick, isWrite := false, underLock := true },
   { var := SharedVar.fired, isWrite := false, underLock := true }] ++
    (if hit then [{ var := SharedVar.fired, isWrite := true, underLock := true }] else [])

/-- Accesses of one call of the patched wait primitive `_sleep`
(sim_runner.py, lines 216-218): `keyboard_mock.tick += 1` is executed
without acquiring `mock._lock`. -/
def sleepAccesses : List SharedAccess :=
  [{ var := SharedVar.tick, isWrite := false, underLock := false },
   { var := SharedVar.tick, isWrite := true, underLock := false }]

/-! ## Concrete instances used by witnesses and counterexamples -/

/-- A concrete environment: zero trigonometry, `uniform` returning its
lower bound (which satisfies the uniform contract). -/
def envC : SimEnv :=
  { sin := fun _ => 0
    cos := fun _ => 0
    uniform := fun _ lo _ => lo
    uniform_mem := fun _ lo _ h => ⟨le_refl lo, h⟩ }

/-- The static target of the spec's end-to-end example:
`SphereConfig((100000, -200000, 50000), "static", noise=0)` (amplitude,
frequency and phase keep their source defaults). -/
def staticConfig : SphereConfig :=
  { center := (100000, -200000, 50000)
    motion_type := "static"
    amplitude := 5000
    frequency := 1 / 2
    phase := 0
    noise := 0 }

/-- A circling target used in witnesses. -/
def circleConfig : SphereConfig :=
  { center := (0, 0, 0)
    motion_type := "circle_xy"
    amplitude := 50000
    frequency := 1 / 2
    phase := 0
    noise := 100 }

/-- Simulator holding exactly the spec example's static target. -/
def sim0 : SphereSimulator := mkSimulator.add_sphere staticConfig 0

/-- The scheduler of the spec's single-fire example: schedule `{5: "c"}`,
tick already advanced to 5, nothing fired yet. -/
def mock5 : KeyboardMock :=
  { schedule := fun t => if t = 5 then some "c" else none
    tick := 5
    fired := []
    history := [] }

/-- A renderer state whose previous frame has five lines. -/
def d5 : SmoothDisplay := { last_lines := ["l1", "l2", "l3", "l4", "l5"] }

/-! # Theorems -/

/-! ## Digit-string lemmas -/

theorem natDigitsAux_eq_natDigits : ∀ fuel n, n < fuel → natDigitsAux fuel n = natDigits n := by
  intro fuel
  induction fuel using Nat.strong_induction_on with
  | _ fuel ih =>
    intro n hn
    match fuel, hn with
    | fuel + 1, hn =>
      by_cases h10 : n < 10
      · simp [natDigitsAux, natDigits, h10]
      · have hrec : n / 10 < n := Nat.div_lt_self (by omega) (by omega)
        have h1 : natDigitsAux fuel (n / 10) = natDigits (n / 10) := by
          rcases Nat.eq_zero_or_pos fuel with hf | hf
          · omega
          · exact ih fuel (Nat.lt_succ_self fuel) (n / 10) (by omega)
        have h2 : natDigitsAux (n + 1) n = natDigitsAux n (n / 10) ++ [digitChar (n % 10)] := by
          simp [natDigitsAux, h10]
        have h3 : natDigitsAux n (n / 10) = natDigits (n / 10) :=
          ih n (by omega) (n / 10) (by omega)
        simp [natDigitsAux, h10, h1, natDigits, h2, h3]

theorem natDigits_of_lt (n : Nat) (h : n < 10) : natDigits n = [digitChar n] := by
  simp [natDigits, natDigitsAux, h]

theorem natDigits_of_ge (n : Nat) (h : ¬ n < 10) :
    natDigits n = natDigits (n / 10) ++ [digitChar (n % 10)] := by
  have hrec : n / 10 < n := Nat.div_lt_self (by omega) (by omega)
  have h2 : natDigits n = natDigitsAux n (n / 10) ++ [digitChar (n % 10)] := by
    simp only [natDigits, natDigitsAux, if_neg h]
  rw [h2, natDigitsAux_eq_natDigits n (n / 10) (by omega)]

theorem digitVal_digitChar : ∀ d, d < 10 → digitVal (digitChar d) = d := by decide

theorem digitsToNat_append_singleton (l : List Char) (c : Char) :
    digitsToNat (l ++ [c]) = 10 * digitsToNat l + digitVal c := by
  simp [digitsToNat, List.foldl_append]

/-- Reading back the decimal rendering recovers the number. -/
theorem digitsToNat_natDigits : ∀ n, digitsToNat (natDigits n) = n := by
  intro n
  induction n using Nat.strong_induction_on with
  | _ n ih =>
    by_cases h10 : n < 10
    · simp [natDigits_of_lt n h10, digitsToNat, digitVal_digitChar n h10]
    · have hrec : n / 10 < n := Nat.div_lt_self (by omega) (by omega)
      rw [natDigits_of_ge n h10, digitsToNat_append_singleton, ih (n / 10) hrec,
        digitVal_digitChar (n % 10) (by omega)]
      omega

theorem natDigits_ne_nil (n : Nat) : natDigits n ≠ [] := by
  by_cases h10 : n < 10
  · simp [natDigits_of_lt n h10]
  · simp [natDigits_of_ge n h10]

/-- Digit-count bound: a number below `10 ^ k` needs at most `k` digits
(for `k ≥ 1`). -/
theorem natDigits_length_le : ∀ n k, 1 ≤ k → n < 10 ^ k → (natDigits n).length ≤ k := by
  intro n
  induction n using Nat.strong_induction_on with
  | _ n ih =>
    intro k hk hlt
    by_cases h10 : n < 10
    · simp [natDigits_of_lt n h10]; omega
    · have hrec : n / 10 < n := Nat.div_lt_self (by omega) (by omega)
      have hk2 : 2 ≤ k := by
        by_contra hcon
        have : k = 1 := by omega
        subst this
        simp [pow_one] at hlt
        omega
      have hdiv : n / 10 < 10 ^ (k - 1) := by
        have hsplit : 10 ^ k = 10 ^ (k - 1) * 10 := by
          conv_lhs => rw [show k = (k - 1) + 1 by omega]
          rw [pow_succ]
        rw [Nat.div_lt_iff_lt_mul (by omega)]
        omega
      have := ih (n / 10) hrec (k - 1) (by omega) hdiv
      rw [natDigits_of_ge n h10]
      simp
      omega

theorem natDigits_all_digit : ∀ n c, c ∈ natDigits n → c.isDigit = true := by
  intro n
  induction n using Nat.strong_induction_on with
  | _ n ih =>
    intro c hc
    have hbase : ∀ d, d < 10 → (digitChar d).isDigit = true := by decide
    by_cases h10 : n < 10
    · rw [natDigits_of_lt n h10] at hc
      simp at hc
      exact hc ▸ hbase n h10
    · have hrec : n / 10 < n := Nat.div_lt_self (by omega) (by omega)
      rw [natDigits_of_ge n h10] at hc
      rcases List.mem_append.mp hc with h | h
      · exact ih (n / 10) hrec c h
      · simp at h
        exact h ▸ hbase (n % 10) (by omega)

/-! ## Decoder loop lemmas -/

theorem posStrLoop_nil (n fuel : Nat) : posStrLoop n fuel [] = [] := by
  cases fuel <;> rfl

theorem posStrLoop_fuel_eq (n : Nat) :
    ∀ f1 f2 l, l.length ≤ f1 → l.length ≤ f2 → posStrLoop n f1 l = posStrLoop n f2 l := by
  intro f1
  induction f1 with
  | zero =>
    intro f2 l h1 _
    have : l = [] := List.length_eq_zero.mp (by omega)
    subst this
    rw [posStrLoop_nil, posStrLoop_nil]
  | succ f ih =>
    intro f2 l h1 h2
    cases l with
    | nil => rw [posStrLoop_nil, posStrLoop_nil]
    | cons c rest =>
      cases f2 with
      | zero => simp at h2
      | succ g =>
        simp only [posStrLoop]
        by_cases hc : c = '+' ∨ c = '-'
        · rw [if_pos hc, if_pos hc]
          congr 1
          apply ih
          · simp at h1 ⊢; omega
          · simp at h2 ⊢; omega
        · rw [if_neg hc, if_neg hc]
          apply ih
          · simp at h1; omega
          · simp at h2; omega

theorem posDecode_cons_skip (n : Nat) (c : Char) (rest : List Char)
    (h : ¬ (c = '+' ∨ c = '-')) : posDecode n (c :: rest) = posDecode n rest := by
  simp only [posDecode, List.length_cons, posStrLoop, if_neg h]

theorem posDecode_skip_all (n : Nat) :
    ∀ pre rest, (∀ c ∈ pre, ¬ (c = '+' ∨ c = '-')) →
      posDecode n (pre ++ rest) = posDecode n rest := by
  intro pre
  induction pre with
  | nil => intro rest _; rfl
  | cons c pre ih =>
    intro rest h
    rw [List.cons_append, posDecode_cons_skip n c (pre ++ rest) (h c (List.mem_cons_self c pre))]
    exact ih rest (fun d hd => h d (List.mem_cons_of_mem c hd))

theorem posDecode_consume (n : Nat) (tok rest : List Char)
    (hlen : tok.length = n + 1)
    (hhead : ∃ c t, tok = c :: t ∧ (c = '+' ∨ c = '-')) :
    posDecode n (tok ++ rest) = insertPoint tok :: posDecode n rest := by
  obtain ⟨c, t, htok, hc⟩ := hhead
  subst htok
  have ht : t.length = n := by simp at hlen; omega
  have htake : List.take (n + 1) (c :: t.append rest) = c :: t := by
    show List.take (n + 1) (c :: (t ++ rest)) = c :: t
    rw [List.take_succ_cons, List.take_left' ht]
  have hdrop : List.drop (n + 1) (c :: t.append rest) = rest := by
    show List.drop (n + 1) (c :: (t ++ rest)) = rest
    rw [List.drop_succ_cons, List.drop_left' ht]
  simp only [List.cons_append, posDecode, List.length_cons, posStrLoop, if_pos hc, htake, hdrop]
  congr 1
  exact posStrLoop_fuel_eq n (t.append rest).length rest.length rest
    (by rw [show t.append rest = t ++ rest from rfl, List.length_append]; omega) (le_refl _)

/-! ## Shape of encoded tokens -/

theorem format_coord_data (n : Int) (width : Nat) :
    (format_coord n width true).data =
      (if 0 ≤ n then '+' else '-') :: spacePad width (natDigits n.natAbs) := by
  by_cases h : 0 ≤ n <;> simp [format_coord, h, String.data_append]

theorem spacePad_length (width : Nat) (l : List Char) (h : l.length ≤ width) :
    (spacePad width l).length = width := by
  simp [spacePad]
  omega

/-- A value whose magnitude fits the digit width encodes to a token of
exactly `width + 1` characters. -/
theorem format_coord_length (n : Int) (width : Nat) (hw : 1 ≤ width)
    (h : n.natAbs < 10 ^ width) : (format_coord n width true).data.length = width + 1 := by
  rw [format_coord_data]
  simp [spacePad_length width _ (natDigits_length_le n.natAbs width hw h)]

theorem mem_spacePad (width : Nat) (l : List Char) (c : Char) (h : c ∈ spacePad width l) :
    c = ' ' ∨ c ∈ l := by
  rcases List.mem_append.mp h with h | h
  · exact Or.inl (List.eq_of_mem_replicate h)
  · exact Or.inr h

theorem point_not_mem_format_coord (n : Int) (width : Nat) :
    '.' ∉ (format_coord n width true).data := by
  rw [format_coord_data]
  intro hmem
  rcases List.mem_cons.mp hmem with h | h
  · split at h <;> simp_all
  · rcases mem_spacePad width _ '.' h with h | h
    · simp at h
    · have := natDigits_all_digit n.natAbs '.' h
      simp [Char.isDigit] at this

/-! ## Decoding a full TX response frame -/

theorem joinBar_data : ∀ l : List String, (joinBar l).data = joinBarChars (l.map String.data) := by
  intro l
  match l with
  | [] => rfl
  | [s] => rfl
  | s :: s' :: rest =>
    show (s ++ "|" ++ joinBar (s' :: rest)).data = _
    rw [String.data_append, String.data_append, joinBar_data (s' :: rest)]
    show s.data ++ ['|'] ++ _ = _
    rw [List.append_assoc]
    rfl

theorem posDecode_no_sign (n : Nat) (l : List Char) (h : ∀ c ∈ l, ¬ (c = '+' ∨ c = '-')) :
    posDecode n l = [] := by
  have := posDecode_skip_all n l [] h
  simpa using this

/-- Decoding a `|`-joined sequence of sign-led `(n+1)`-character tokens
followed by a sign-free tail yields exactly one decoded token per input
token, in order, each with the decimal point inserted. -/
theorem posDecode_joinBarChars (tail : List Char) (htail : ∀ c ∈ tail, ¬ (c = '+' ∨ c = '-')) :
    ∀ toks : List (List Char),
      (∀ tk ∈ toks, tk.length = 7 ∧ ∃ c t, tk = c :: t ∧ (c = '+' ∨ c = '-')) →
      posDecode 6 (joinBarChars toks ++ '|' :: tail) = toks.map insertPoint := by
  intro toks
  induction toks with
  | nil =>
    intro _
    simp only [joinBarChars, List.nil_append, List.map_nil]
    exact posDecode_no_sign 6 ('|' :: tail) (by
      intro c hc
      rcases List.mem_cons.mp hc with h | h
      · subst h; simp
      · exact htail c h)
  | cons t ts ih =>
    intro htoks
    obtain ⟨hlen, hhead⟩ := htoks t (List.mem_cons_self t ts)
    cases ts with
    | nil =>
      simp only [joinBarChars, List.map_cons, List.map_nil]
      rw [posDecode_consume 6 t ('|' :: tail) hlen hhead]
      rw [posDecode_no_sign 6 ('|' :: tail) (by
        intro c hc
        rcases List.mem_cons.mp hc with h | h
        · subst h; simp
        · exact htail c h)]
    | cons u ts' =>
      have hjoin : joinBarChars (t :: u :: ts') = t ++ '|' :: joinBarChars (u :: ts') := rfl
      rw [hjoin, List.append_assoc]
      have h1 : ('|' :: joinBarChars (u :: ts')) ++ '|' :: tail
          = '|' :: (joinBarChars (u :: ts') ++ '|' :: tail) := rfl
      rw [h1, posDecode_consume 6 t _ hlen hhead,
        posDecode_cons_skip 6 '|' _ (by simp),
        ih (fun tk hk => htoks tk (List.mem_cons_of_mem t hk))]
      rfl

/-! ## Reading decoded tokens back as integers -/

theorem filter_insertPoint (p : Char → Bool) (hp : p '.' = false) (l : List Char) :
    (insertPoint l).filter p = l.filter p := by
  rw [insertPoint, List.filter_append, List.filter_cons_of_neg (by simp [hp]),
    ← List.filter_append, List.take_append_drop]

theorem insertPoint_head (c : Char) (l : List Char) :
    (insertPoint (c :: l)).head? = some c := by
  rw [insertPoint, List.take_succ_cons, List.cons_append]
  rfl

theorem filter_isDigit_format_coord (n : Int) (width : Nat) :
    (format_coord n width true).data.filter Char.isDigit = natDigits n.natAbs := by
  rw [format_coord_data]
  have hsign : Char.isDigit (if 0 ≤ n then '+' else '-') = false := by
    split <;> rfl
  rw [List.filter_cons_of_neg (by simp [hsign]), spacePad,
    List.filter_append, List.filter_replicate_of_neg (by simp [Char.isDigit]),
    List.filter_eq_self.mpr (fun c hc => natDigits_all_digit n.natAbs c hc), List.nil_append]

/-- Round-trip at the single-token level: decoding's point insertion over
an encoded token denotes the original integer. -/
theorem tokenInt_insertPoint_format_coord (v : Int) :
    tokenInt (String.mk (insertPoint (format_coord v 6 true).data)) = v := by
  have hdata : (String.mk (insertPoint (format_coord v 6 true).data)).data
      = insertPoint (format_coord v 6 true).data := rfl
  have hfilter : (insertPoint (format_coord v 6 true).data).filter Char.isDigit
      = natDigits v.natAbs := by
    rw [filter_insertPoint Char.isDigit rfl, filter_isDigit_format_coord]
  have hhead : (insertPoint (format_coord v 6 true).data).head?
      = some (if 0 ≤ v then '+' else '-') := by
    rw [format_coord_data]
    exact insertPoint_head _ _
  rw [tokenInt, hdata, hfilter, hhead, digitsToNat_natDigits]
  by_cases h : 0 ≤ v
  · rw [if_pos h, if_neg (by decide : ¬ ((some '+' : Option Char) = some '-'))]
    omega
  · rw [if_neg h, if_pos rfl]
    omega

theorem mapPointwiseId {α : Type} (l : List α) (f : α → α) (h : ∀ a ∈ l, f a = a) :
    l.map f = l := by
  induction l with
  | nil => rfl
  | cons a l ih =>
    rw [List.map_cons, h a (List.mem_cons_self a l),
      ih (fun b hb => h b (List.mem_cons_of_mem a hb))]

/-- Decoding a full `TXRESP|OK|...|END` frame built from in-range values
produces exactly the encoded tokens, each with the decimal point inserted. -/
theorem decode_txFrame (vals : List Int) (hfit : ∀ v ∈ vals, v.natAbs < 10 ^ 6) :
    posDecode 6 (txFrame vals).data
      = (vals.map (fun v => (format_coord v 6 true).data)).map insertPoint := by
  have htoks : ∀ tk ∈ vals.map (fun v => (format_coord v 6 true).data),
      tk.length = 7 ∧ ∃ c t, tk = c :: t ∧ (c = '+' ∨ c = '-') := by
    intro tk htk
    obtain ⟨v, hv, rfl⟩ := List.mem_map.mp htk
    refine ⟨format_coord_length v 6 (by omega) (hfit v hv), ?_⟩
    rw [format_coord_data]
    exact ⟨_, _, rfl, by split <;> simp⟩
  have h1 : (txFrame vals).data
      = ("TXRESP|OK|" : String).data ++
          (joinBarChars (vals.map (fun v => (format_coord v 6 true).data)) ++
            '|' :: ['E', 'N', 'D']) := by
    rw [txFrame, String.data_append, String.data_append, List.append_assoc, joinBar_data,
      List.map_map]
    rfl
  rw [h1, posDecode_skip_all 6 _ _ (by decide),
    posDecode_joinBarChars ['E', 'N', 'D'] (by decide) _ htoks]

/-- Claim C2 (confirmed): decoding the encoded wire frame of any integer
list whose values all fit six digits yields exactly one numeric token per
input value; removing the inserted decimal point from each decoded token
restores the encoded token, and the token's digits (with sign) denote the
original integer. -/
theorem C2_codec_round_trip (vals : List Int) (hfit : ∀ v ∈ vals, v.natAbs < 10 ^ 6) :
    (TX0008_pos_str_to_list (txFrame vals) 6).length = vals.length ∧
    (TX0008_pos_str_to_list (txFrame vals) 6).map removePoint
      = vals.map (fun v => format_coord v 6 true) ∧
    (TX0008_pos_str_to_list (txFrame vals) 6).map tokenInt = vals := by
  have hdec : TX0008_pos_str_to_list (txFrame vals) 6
      = vals.map (fun v => String.mk (insertPoint (format_coord v 6 true).data)) := by
    rw [TX0008_pos_str_to_list, decode_txFrame vals hfit, List.map_map, List.map_map]
    rfl
  refine ⟨by rw [hdec, List.length_map], ?_, ?_⟩
  · rw [hdec, List.map_map]
    apply List.map_congr_left
    intro v hv
    show removePoint (String.mk (insertPoint (format_coord v 6 true).data))
      = format_coord v 6 true
    have h2 : removePoint (String.mk (insertPoint (format_coord v 6 true).data))
        = String.mk ((insertPoint (format_coord v 6 true).data).filter (fun c => !(c == '.'))) :=
      rfl
    rw [h2, filter_insertPoint _ (by decide),
      List.filter_eq_self.mpr
        (fun a ha => by
          have hne : a ≠ '.' := by
            intro hcon
            exact point_not_mem_format_coord v 6 (hcon ▸ ha)
          simp [beq_eq_false_iff_ne.mpr hne])]
  · rw [hdec, List.map_map]
    exact mapPointwiseId vals _ (fun v _ => tokenInt_insertPoint_format_coord v)

/-- Witness for `C2_codec_round_trip` at the spec example's coordinate
triple. -/
theorem C2_codec_round_trip_witness :
    (TX0008_pos_str_to_list (txFrame [100000, -200000, 50000]) 6).map tokenInt
      = [100000, -200000, 50000] :=
  (C2_codec_round_trip [100000, -200000, 50000] (by decide)).2.2

/-! ## The spec example frame (claim C1) -/

theorem pyInt_intCast (n : Int) : pyInt ((n : ℚ)) = n := by
  simp [pyInt, Rat.intCast_num, Rat.intCast_den, Int.tdiv_one]

theorem uniform_zero (env : SimEnv) (k : Nat) : env.uniform k (-(0 : ℚ)) 0 = 0 := by
  have h := env.uniform_mem k (-(0 : ℚ)) 0 (by norm_num)
  have h1 := h.1
  rw [neg_zero] at h1
  exact le_antisymm h.2 h1

theorem motionOffset_static (env : SimEnv) (cfg : SphereConfig) (t : ℚ) (k : Nat)
    (h : cfg.motion_type = "static") : motionOffset env cfg t k = ((0, 0, 0), k) := by
  rw [motionOffset, if_pos h]

/-- A static sphere with zero noise reports exactly its (truncated)
center, whatever the environment, query time and stream position. -/
theorem get_position_static_noise0 (env : SimEnv) (now : ℚ) (cfg : SphereConfig) (st : ℚ)
    (k : Nat) (hm : cfg.motion_type = "static") (hn : cfg.noise = 0) :
    VirtualSphere.get_position env now { config := cfg, start_time := st } k
      = ((pyInt cfg.center.1, pyInt cfg.center.2.1, pyInt cfg.center.2.2), k + 3) := by
  simp only [VirtualSphere.get_position, motionOffset_static env cfg (now - st) k hm, hn]
  rw [uniform_zero env k, uniform_zero env (k + 1), uniform_zero env (k + 2)]
  norm_num

theorem sim0_get_all_positions (env : SimEnv) (now : ℚ) (k : Nat) :
    sim0.get_all_positions env now k = [(100000, -200000, 50000)] := by
  have hsph : sim0.spheres = [{ config := staticConfig, start_time := 0 }] := rfl
  rw [SphereSimulator.get_all_positions, hsph, getAllAux,
    get_position_static_noise0 env now staticConfig 0 k rfl rfl]
  have h1 : pyInt staticConfig.center.1 = 100000 := by
    rw [show staticConfig.center.1 = ((100000 : Int) : ℚ) by norm_num [staticConfig],
      pyInt_intCast]
  have h2 : pyInt staticConfig.center.2.1 = -200000 := by
    rw [show staticConfig.center.2.1 = (((-200000 : Int)) : ℚ) by norm_num [staticConfig],
      pyInt_intCast]
  have h3 : pyInt staticConfig.center.2.2 = 50000 := by
    rw [show staticConfig.center.2.2 = ((50000 : Int) : ℚ) by norm_num [staticConfig],
      pyInt_intCast]
  rw [getAllAux, h1, h2, h3]

theorem generate_tx_response_sim0 (env : SimEnv) (now : ℚ) (k : Nat) :
    generate_tx_response env now k sim0 = "TXRESP|OK|+100000|-200000|+ 50000|END" := by
  rw [generate_tx_response, sim0_get_all_positions env now k]
  decide

/-- Claim C1 (corrected): for every integer whose magnitude fits the
digit width, `format_coord` produces a token of exactly `width + 1`
characters, a leading `+` (when `0 ≤ n`) or `-` followed by the absolute
value right-aligned in `width` characters — but padded with **spaces**,
not zeros; consequently the static example target encodes to
`TXRESP|OK|+100000|-200000|+ 50000|END` (with a space, not
`+050000`). -/
theorem C1_encode_format :
    (∀ (n : Int) (width : Nat), 1 ≤ width → n.natAbs < 10 ^ width →
      (format_coord n width true).length = width + 1 ∧
      (format_coord n width true).data
        = (if 0 ≤ n then '+' else '-') :: spacePad width (natDigits n.natAbs)) ∧
    (∀ (env : SimEnv) (now : ℚ) (k : Nat),
      generate_tx_response env now k sim0 = "TXRESP|OK|+100000|-200000|+ 50000|END") := by
  constructor
  · intro n width hw hfit
    refine ⟨?_, format_coord_data n width⟩
    show (format_coord n width true).data.length = width + 1
    exact format_coord_length n width hw hfit
  · exact generate_tx_response_sim0

/-- Counterexample to claim C1 as stated: the encoding of `50000` at
width 6 is `"+ 50000"` (space-padded), not the zero-padded `"+050000"`
the claim asserts. -/
theorem C1_counterexample :
    format_coord 50000 6 true = "+ 50000" ∧ format_coord 50000 6 true ≠ "+050000" := by
  constructor <;> decide

/-- Witness for `C1_encode_format`. -/
theorem C1_encode_format_witness :
    (format_coord 50000 6 true).length = 7 ∧
    generate_tx_response envC 0 0 sim0 = "TXRESP|OK|+100000|-200000|+ 50000|END" :=
  ⟨(C1_encode_format.1 50000 6 (by norm_num) (by norm_num)).1, C1_encode_format.2 envC 0 0⟩

/-! ## Decimal-point position and lenient decoding (claims C3, C4) -/

/-- Claim C3 (corrected): on seeing `+` or `-` the decoder consumes the
sign plus the next six characters as one token, but it reinserts the
decimal point after the fifth character of the consumed run — i.e. after
the **fourth** digit, producing `sign d1 d2 d3 d4 '.' d5 d6`, not after
the fifth digit as the claim states. -/
theorem C3_decode_point_position (e1 e2 e3 e4 e5 e6 : Char) (rest : List Char) :
    TX0008_pos_str_to_list (String.mk ('+' :: e1 :: e2 :: e3 :: e4 :: e5 :: e6 :: rest)) 6
      = String.mk ['+', e1, e2, e3, e4, '.', e5, e6]
          :: TX0008_pos_str_to_list (String.mk rest) 6 ∧
    TX0008_pos_str_to_list (String.mk ('-' :: e1 :: e2 :: e3 :: e4 :: e5 :: e6 :: rest)) 6
      = String.mk ['-', e1, e2, e3, e4, '.', e5, e6]
          :: TX0008_pos_str_to_list (String.mk rest) 6 := by
  have key : ∀ c : Char, (c = '+' ∨ c = '-') →
      TX0008_pos_str_to_list (String.mk (c :: e1 :: e2 :: e3 :: e4 :: e5 :: e6 :: rest)) 6
        = String.mk [c, e1, e2, e3, e4, '.', e5, e6]
            :: TX0008_pos_str_to_list (String.mk rest) 6 := by
    intro c hc
    have hsplit : c :: e1 :: e2 :: e3 :: e4 :: e5 :: e6 :: rest
        = [c, e1, e2, e3, e4, e5, e6] ++ rest := rfl
    have hcons := posDecode_consume 6 [c, e1, e2, e3, e4, e5, e6] rest (by simp)
      ⟨c, [e1, e2, e3, e4, e5, e6], rfl, hc⟩
    show (posDecode 6 (c :: e1 :: e2 :: e3 :: e4 :: e5 :: e6 :: rest)).map String.mk = _
    rw [hsplit, hcons]
    rfl
  exact ⟨key '+' (Or.inl rfl), key '-' (Or.inr rfl)⟩

/-- Counterexample to claim C3 as stated: decoding the single token
`+123456` yields `+1234.56` (point after the fourth digit), not the
`+12345.6` the claim's placement would give. -/
theorem C3_counterexample :
    TX0008_pos_str_to_list "+123456" 6 = ["+1234.56"] ∧
    TX0008_pos_str_to_list "+123456" 6 ≠ ["+12345.6"] := by
  constructor <;> decide

/-- Claim C4 (corrected): the decoder is total and skips every character
that is not `+` or `-`; but a truncated trailing token — a sign followed
by fewer than six remaining characters — is **not** dropped: the whole
remaining run is consumed, gets the decimal point inserted at position 5,
and is appended as a final (short) token. -/
theorem C4_decode_total_truncated :
    (∀ (c : Char) (s : List Char), ¬ (c = '+' ∨ c = '-') →
      TX0008_pos_str_to_list (String.mk (c :: s)) 6
        = TX0008_pos_str_to_list (String.mk s) 6) ∧
    (∀ (c : Char) (s : List Char), (c = '+' ∨ c = '-') → s.length < 6 →
      TX0008_pos_str_to_list (String.mk (c :: s)) 6 = [String.mk (insertPoint (c :: s))]) := by
  constructor
  · intro c s h
    show (posDecode 6 (c :: s)).map String.mk = (posDecode 6 s).map String.mk
    rw [posDecode_cons_skip 6 c s h]
  · intro c s hc hshort
    show (posDecode 6 (c :: s)).map String.mk = _
    have htake : (c :: s).take 7 = c :: s :=
      List.take_of_length_le (by simp; omega)
    have hdrop : (c :: s).drop 7 = [] :=
      List.drop_eq_nil_of_le (by simp; omega)
    simp only [posDecode, List.length_cons, posStrLoop, if_pos hc]
    rw [show (6 : Nat) + 1 = 7 from rfl, htake, hdrop, posStrLoop_nil]
    rfl

/-- Counterexample to claim C4 as stated: the truncated input `"+12"`
decodes to the single short token `"+12."` rather than to the empty
list. -/
theorem C4_counterexample :
    TX0008_pos_str_to_list "+12" 6 = ["+12."] ∧ TX0008_pos_str_to_list "+12" 6 ≠ [] := by
  constructor <;> decide

/-- Witness for `C4_decode_total_truncated`. -/
theorem C4_decode_total_truncated_witness :
    TX0008_pos_str_to_list "X+12" 6 = TX0008_pos_str_to_list "+12" 6 ∧
    TX0008_pos_str_to_list "+12" 6 = [String.mk (insertPoint ['+', '1', '2'])] :=
  ⟨C4_decode_total_truncated.1 'X' ['+', '1', '2'] (by decide),
    C4_decode_total_truncated.2 '+' ['1', '2'] (by decide) (by decide)⟩

/-! ## Missing `circle_yz` branch (claim C5) -/

/-- Claim C5 (code bug in the source): `get_position`'s dispatch has no
`circle_yz` branch, so a `circle_yz` target falls into the unknown-type
fallback and its offset is identically `(0, 0, 0)` — it does not trace a
circle of radius `amplitude` in the y–z plane, for any amplitude,
frequency, phase or elapsed time. -/
theorem C5_circle_yz_zero_offset (env : SimEnv) (c : ℚ × ℚ × ℚ) (amp freq ph noi t : ℚ)
    (k : Nat) :
    motionOffset env
      { center := c, motion_type := "circle_yz", amplitude := amp, frequency := freq,
        phase := ph, noise := noi } t k = ((0, 0, 0), k) := rfl

/-! ## Scheduler single-fire (claims C6, C10) -/

theorem is_pressed_false_of_fired (m : KeyboardMock) (key : String) (h : m.tick ∈ m.fired) :
    m.is_pressed key = (false, m) := by
  rw [KeyboardMock.is_pressed, if_neg (fun hcon => hcon.2 h)]

theorem runQueries_all_false (m : KeyboardMock) (h : m.tick ∈ m.fired) :
    ∀ keys, ∀ b ∈ (runQueries m keys).1, b = false := by
  intro keys
  induction keys with
  | nil => intro b hb; simp [runQueries] at hb
  | cons key rest ih =>
    intro b hb
    simp only [runQueries, is_pressed_false_of_fired m key h] at hb
    rcases List.mem_cons.mp hb with h1 | h1
    · exact h1
    · exact ih b h1

/-- Claim C6 (confirmed): at a tick mapped to an event that has not yet
fired, the first query for that event returns true, leaves the tick
unchanged, and marks the tick as fired; every further query before a tick
advance (whatever its key) returns false.  In particular with schedule
`{5: "c"}`, two consecutive queries for `"c"` at tick 5 return
`(true, false)`. -/
theorem C6_scheduler_single_fire (m : KeyboardMock) (key : String)
    (hmap : m.schedule m.tick = some key) (hnew : m.tick ∉ m.fired) :
    (m.is_pressed key).1 = true ∧
    (m.is_pressed key).2.tick = m.tick ∧
    (m.is_pressed key).2.tick ∈ (m.is_pressed key).2.fired ∧
    (∀ keys, ∀ b ∈ (runQueries (m.is_pressed key).2 keys).1, b = false) ∧
    (runQueries mock5 ["c", "c"]).1 = [true, false] := by
  have hp : m.is_pressed key
      = (true, { m with fired := m.tick :: m.fired, history := m.history ++ [(m.tick, key)] }) := by
    rw [KeyboardMock.is_pressed, if_pos ⟨hmap, hnew⟩]
  refine ⟨by rw [hp], by rw [hp], ?_, ?_, by decide⟩
  · rw [hp]
    exact List.mem_cons_self _ _
  · intro keys
    apply runQueries_all_false
    rw [hp]
    exact List.mem_cons_self _ _

/-- Witness for `C6_scheduler_single_fire` at the spec's `{5: "c"}`
example. -/
theorem C6_scheduler_single_fire_witness :
    (mock5.is_pressed "c").1 = true ∧
    (∀ b ∈ (runQueries (mock5.is_pressed "c").2 ["c"]).1, b = false) :=
  ⟨(C6_scheduler_single_fire mock5 "c" rfl (by decide)).1,
    (C6_scheduler_single_fire mock5 "c" rfl (by decide)).2.2.2.1 ["c"]⟩

/-- Claim C10 (confirmed): at a tick mapped to some event, a query with a
non-matching key returns false and leaves the whole state (fired set,
tick, history) unchanged, so a later query with the matching key still
returns true. -/
theorem C10_nonmatching_preserves (m : KeyboardMock) (key other : String)
    (hmap : m.schedule m.tick = some other) (hne : key ≠ other) :
    m.is_pressed key = (false, m) ∧
    (m.tick ∉ m.fired → ((m.is_pressed key).2.is_pressed other).1 = true) := by
  have hcond : ¬ (m.schedule m.tick = some key ∧ m.tick ∉ m.fired) := by
    intro hcon
    rw [hmap] at hcon
    exact hne (Option.some.inj hcon.1).symm
  have hp : m.is_pressed key = (false, m) := by
    rw [KeyboardMock.is_pressed, if_neg hcond]
  refine ⟨hp, fun hnew => ?_⟩
  rw [hp]
  show (m.is_pressed other).1 = true
  rw [KeyboardMock.is_pressed, if_pos ⟨hmap, hnew⟩]

/-- Witness for `C10_nonmatching_preserves`. -/
theorem C10_nonmatching_preserves_witness :
    mock5.is_pressed "x" = (false, mock5) ∧
    ((mock5.is_pressed "x").2.is_pressed "c").1 = true :=
  ⟨(C10_nonmatching_preserves mock5 "x" "c" rfl (by decide)).1,
    (C10_nonmatching_preserves mock5 "x" "c" rfl (by decide)).2 (by decide)⟩

/-! ## Renderer shrink case (claim C7) -/

theorem flatTwoLength (lines : List String) (f g : String → String) :
    (lines.flatMap (fun l => [f l, g l])).length = 2 * lines.length := by
  induction lines with
  | nil => rfl
  | cons a l ih =>
    rw [List.flatMap_cons, List.length_append, ih]
    simp
    omega

/-- Claim C7 (confirmed): when the new frame is shorter than the previous
one, `update` writes the home escape, then a clear-to-end-of-line escape
and the text for each new line, then exactly `previous − new` trailing
clear-to-end-of-line writes, and stores the new frame as the previous
one. -/
theorem C7_renderer_shrink (d : SmoothDisplay) (lines : List String)
    (h : lines.length < d.last_lines.length) :
    (d.update lines).1.take (1 + 2 * lines.length)
      = "\x1b[H" :: lines.flatMap (fun line => ["\x1b[K", line ++ "\n"]) ∧
    (d.update lines).1.drop (1 + 2 * lines.length)
      = List.replicate (d.last_lines.length - lines.length) "\x1b[K\n" ∧
    (d.update lines).2.last_lines = lines := by
  have h1 : (d.update lines).1
      = "\x1b[H" :: (lines.flatMap (fun line => ["\x1b[K", line ++ "\n"]) ++
          List.replicate (d.last_lines.length - lines.length) "\x1b[K\n") := by
    simp only [SmoothDisplay.update, if_pos h]
  have hflat : (lines.flatMap (fun line => ["\x1b[K", line ++ "\n"])).length
      = 2 * lines.length := flatTwoLength lines _ _
  have hidx : 1 + 2 * lines.length = 2 * lines.length + 1 := by omega
  refine ⟨?_, ?_, rfl⟩
  · rw [h1, hidx, List.take_succ_cons, List.take_left' hflat]
  · rw [h1, hidx, List.drop_succ_cons, List.drop_left' hflat]

/-- Witness for `C7_renderer_shrink`: previous frame of five lines, new
frame of two lines, exactly three trailing clear escapes. -/
theorem C7_renderer_shrink_witness :
    (d5.update ["a", "b"]).1.drop 5 = List.replicate 3 "\x1b[K\n" ∧
    (d5.update ["a", "b"]).2.last_lines = ["a", "b"] :=
  ⟨(C7_renderer_shrink d5 ["a", "b"] (by decide)).2.1,
    (C7_renderer_shrink d5 ["a", "b"] (by decide)).2.2⟩

/-! ## Index stability of the target registry (claim C8) -/

theorem addAll_spheres : ∀ (adds : List (SphereConfig × ℚ)) (sim : SphereSimulator),
    (addAll sim adds).spheres = sim.spheres ++ adds.map mkSphere := by
  intro adds
  induction adds with
  | nil => intro sim; simp [addAll]
  | cons a as ih =>
    intro sim
    have hstep : addAll sim (a :: as) = addAll (sim.add_sphere a.1 a.2) as := rfl
    rw [hstep, ih]
    simp [SphereSimulator.add_sphere, mkSphere]

theorem getAllAux_length (env : SimEnv) (now : ℚ) :
    ∀ (l : List VirtualSphere) (k : Nat), (getAllAux env now l k).length = l.length := by
  intro l
  induction l with
  | nil => intro k; rfl
  | cons s rest ih => intro k; simp [getAllAux, ih]

theorem getAllAux_get? (env : SimEnv) (now : ℚ) :
    ∀ (l : List VirtualSphere) (k i : Nat) (s : VirtualSphere), l[i]? = some s →
      ∃ kk, (getAllAux env now l k)[i]? = some (s.get_position env now kk).1 := by
  intro l
  induction l with
  | nil => intro k i s h; simp at h
  | cons a rest ih =>
    intro k i s h
    cases i with
    | zero =>
      rw [List.getElem?_cons_zero, Option.some.injEq] at h
      subst h
      exact ⟨k, by rw [getAllAux, List.getElem?_cons_zero]⟩
    | succ j =>
      rw [List.getElem?_cons_succ] at h
      obtain ⟨kk, hkk⟩ := ih (a.get_position env now k).2 j s h
      exact ⟨kk, by rw [getAllAux, List.getElem?_cons_succ, hkk]⟩

/-- Claim C8 (confirmed): after any sequence of adds (and no clear) the
registry holds exactly one sphere per add, in add order; `positions()`
returns exactly one position per sphere, the `i`-th being computed from
the `i`-th added sphere; and later adds never move an existing sphere's
index. -/
theorem C8_index_stability (adds more : List (SphereConfig × ℚ)) (env : SimEnv) (now : ℚ)
    (k : Nat) :
    (addAll mkSimulator adds).spheres = adds.map mkSphere ∧
    ((addAll mkSimulator adds).get_all_positions env now k).length = adds.length ∧
    (∀ (i : Nat) (a : SphereConfig × ℚ), adds[i]? = some a →
      ∃ kk : Nat, ((addAll mkSimulator adds).get_all_positions env now k)[i]?
        = some ((mkSphere a).get_position env now kk).1) ∧
    (addAll (addAll mkSimulator adds) more).spheres.take adds.length
      = (addAll mkSimulator adds).spheres := by
  have hs : (addAll mkSimulator adds).spheres = adds.map mkSphere := by
    rw [addAll_spheres]
    rfl
  refine ⟨hs, ?_, ?_, ?_⟩
  · rw [SphereSimulator.get_all_positions, getAllAux_length, hs, List.length_map]
  · intro i a ha
    rw [SphereSimulator.get_all_positions]
    apply getAllAux_get? env now (addAll mkSimulator adds).spheres k i (mkSphere a)
    rw [hs, List.getElem?_map, ha, Option.map_some']
  · rw [addAll_spheres more (addAll mkSimulator adds), hs,
      List.take_left' (by rw [List.length_map])]

/-- Witness for `C8_index_stability`: two targets added, the first
itemized position belongs to the first-added target. -/
theorem C8_index_stability_witness :
    ∃ kk,
      ((addAll mkSimulator [(staticConfig, 0), (circleConfig, 1)]).get_all_positions
          envC 0 0)[0]?
        = some ((mkSphere (staticConfig, 0)).get_position envC 0 kk).1 :=
  (C8_index_stability [(staticConfig, 0), (circleConfig, 1)] [] envC 0 0).2.2.1 0
    (staticConfig, 0) rfl

/-! ## Lock discipline (claim C9) -/

/-- Claim C9 (code bug in the source): the cadence thread's increment and
the trigger check do run entirely inside the mutex's critical section,
but the time-acceleration path — the patched wait primitive `_sleep` —
increments the shared tick **without** holding the lock, so not every
access to the shared tick counter is inside the critical section. -/
theorem C9_sleep_unlocked :
    tickerAccesses.all (fun a => a.underLock) = true ∧
    (isPressedAccesses true).all (fun a => a.underLock) = true ∧
    (isPressedAccesses false).all (fun a => a.underLock) = true ∧
    sleepAccesses.all (fun a => a.underLock) = false := by
  decide
